import Mathlib

/-
  Verification of the VecMap short-read mapper core
  (src/vecmap/core/mapper.py, src/vecmap/core/mapper_numba.py,
   src/vecmap/applications/crispr.py).

  Strings are embedded as `List Char`; the Python dict (and
  numba typed Dict) is embedded as an association list that keeps
  insertion order; numpy arrays of mismatch counts are embedded as
  lists; the exception that numpy raises on a shape-incompatible
  broadcast is embedded with `Except`.
-/

set_option maxHeartbeats 1000000

namespace VecMap

abbrev Str := List Char

/-- The seed index: a dictionary from k-mer to its list of positions,
kept as an association list in insertion order (like a Python dict). -/
abbrev SeedIndex := List (Str × List Nat)

/-- Python slice `s[a:b]` for `0 ≤ a ≤ b` (clamps at the end of the list,
exactly as Python slicing does for non-negative bounds). -/
def slice (s : Str) (a b : Nat) : Str := (s.drop a).take (b - a)

/-- Python `d.get(key, [])`: the positions stored for a key, or `[]`
when the key is absent.  `dict.get` never inserts. -/
def getD (d : SeedIndex) (key : Str) : List Nat :=
  match d with
  | [] => []
  | (k, v) :: rest => if k = key then v else getD rest key

/-- Python `key in d`. -/
def containsKey (d : SeedIndex) (key : Str) : Bool :=
  match d with
  | [] => false
  | (k, _) :: rest => k = key || containsKey rest key

/-- Python `defaultdict(list)` pattern `d[key].append(i)`: append to the
existing entry, or insert a fresh entry at the end (dict insertion order). -/
def appendEntry (d : SeedIndex) (key : Str) (i : Nat) : SeedIndex :=
  match d with
  | [] => [(key, [i])]
  | (k, v) :: rest =>
    if k = key then (k, v ++ [i]) :: rest else (k, v) :: appendEntry rest key i

/-- `build_seed_index` from src/vecmap/core/mapper.py: scan every start
position `i` in `range(len(ref) - seed_len + 1)` (empty when
`seed_len > len(ref) + 1`, as in Python) and append `i` under the key
`ref[i : i + seed_len]`. -/
def build_seed_index (ref : Str) (seed_len : Nat) : SeedIndex :=
  (List.range (ref.length + 1 - seed_len)).foldl
    (fun index i => appendEntry index (slice ref i (i + seed_len)) i) []

/-- The per-candidate filter of vecmap:
`start >= 0 and start + read_len <= len(ref)`. -/
def inRange (read_len ref_len : Nat) (start : Int) : Bool :=
  decide (0 ≤ start ∧ start + (read_len : Int) ≤ (ref_len : Int))

/-- The double loop of vecmap that collects candidate starts: for every
seed offset, look up `read[offset : offset + seed_len]` in the index and
keep every in-range `hit - offset`.  (The Python code accumulates these
into a set; the set is modelled by applying `sortedSet` to this list.) -/
def candidateStartsList (index : SeedIndex) (read : Str)
    (read_len seed_len : Nat) (seed_offsets : List Nat) (ref_len : Nat) :
    List Int :=
  (seed_offsets.map (fun offset =>
    ((getD index (slice read offset (offset + seed_len))).map
      (fun hit : Nat => (hit : Int) - (offset : Int))).filter
        (inRange read_len ref_len))).flatten

/-- Insert into a strictly ascending list, skipping duplicates. -/
def insertSorted (x : Int) : List Int → List Int
  | [] => [x]
  | y :: ys =>
    if x < y then x :: y :: ys
    else if x = y then y :: ys
    else y :: insertSorted x ys

/-- Python `sorted(set(l))`: the strictly ascending enumeration of the
elements of `l`. -/
def sortedSet (l : List Int) : List Int := l.foldr insertSorted []

/-- Shape compatibility of the numpy broadcast
`substrs != read_arr` where `substrs` has row length `read_len` and
`read_arr` has length `m`: numpy accepts it iff the trailing dimensions
are equal or one of them is 1. -/
def broadcastOk (m read_len : Nat) : Bool :=
  m = read_len || m = 1 || read_len = 1

/-- The numpy row operation `(window != read).sum()` for one candidate
window, including the degenerate broadcast cases (a length-1 read is
broadcast against the window, and a length-1 row against the read).
The final branch is unreachable: numpy raises there, and `mapOne`
checks `broadcastOk` first. -/
def npMismatches (w r : Str) : Nat :=
  if r.length = w.length then
    (w.zip r).countP (fun p => decide (p.1 ≠ p.2))
  else if r.length = 1 then
    w.countP (fun c => decide (c ≠ r.headD ' '))
  else if w.length = 1 then
    r.countP (fun c => decide (w.headD ' ' ≠ c))
  else 0

/-- The reference window gathered for candidate `p`:
`ref_arr[p : p + read_len]` (fancy indexing with `p + arange(read_len)`). -/
def windowAt (ref : Str) (p : Int) (read_len : Nat) : Str :=
  slice ref p.toNat (p.toNat + read_len)

/-- numpy `argmin` selection folded over the scored candidates: keep the
current best unless a strictly smaller count appears, so the first
occurrence of the minimum wins. -/
def selBest (x : Int × Nat) (l : List (Int × Nat)) : Int × Nat :=
  l.foldl (fun b c => if c.2 < b.2 then c else b) x

/-- Scoring and selection for a non-empty candidate list `c :: rest`:
score every candidate window against the read (the batched numpy
comparison) and keep the first minimum (numpy `argmin`). -/
def scoreAndSelect (ref : Str) (read_len : Nat) (read : Str) (c : Int)
    (rest : List Int) : Int × Nat :=
  selBest (c, npMismatches (windowAt ref c read_len) read)
    (rest.map (fun p => (p, npMismatches (windowAt ref p read_len) read)))

/-- The body of vecmap for a single read: build the sorted candidate
list, return the `(-1, -1)` sentinel when it is empty, otherwise score
every candidate window against the read and select the first minimum.
A read whose length is broadcast-incompatible with `read_len` makes the
numpy comparison raise, which aborts the call. -/
def mapOne (ref : Str) (index : SeedIndex) (read_len seed_len : Nat)
    (seed_offsets : List Nat) (read : Str) : Except String (Int × Int) :=
  match sortedSet
      (candidateStartsList index read read_len seed_len seed_offsets
        ref.length) with
  | [] => Except.ok (-1, -1)
  | c :: rest =>
    if broadcastOk read.length read_len then
      Except.ok ((scoreAndSelect ref read_len read c rest).1,
        ((scoreAndSelect ref read_len read c rest).2 : Int))
    else Except.error "operands could not be broadcast together"

/-- The per-read loop of vecmap: one result triple per read, in input
order; an exception raised while scoring one read aborts the whole call
and discards every result already accumulated. -/
def vecmapGo {ι : Type} (ref : Str) (index : SeedIndex)
    (read_len seed_len : Nat) (seed_offsets : List Nat) :
    List (Str × ι) → Except String (List (Int × Int × ι))
  | [] => Except.ok []
  | (read, true_pos) :: rest =>
    match mapOne ref index read_len seed_len seed_offsets read with
    | Except.error e => Except.error e
    | Except.ok (p, m) =>
      match vecmapGo ref index read_len seed_len seed_offsets rest with
      | Except.error e => Except.error e
      | Except.ok ms => Except.ok ((p, m, true_pos) :: ms)

/-- `vecmap` from src/vecmap/core/mapper.py: build the seed index once,
then map each `(read, identifier)` pair to a
`(best_pos, min_mismatches, identifier)` triple.  The Python defaults
are `seed_len = 20` and `seed_offsets = [0, 20, 40, 60, 80]`. -/
def vecmap {ι : Type} (ref : Str) (reads : List (Str × ι))
    (read_len seed_len : Nat) (seed_offsets : List Nat) :
    Except String (List (Int × Int × ι)) :=
  vecmapGo ref (build_seed_index ref seed_len) read_len seed_len
    seed_offsets reads

/-- Mathematical Hamming distance on the common prefix of two symbol
lists (for equal-length lists: the number of differing positions). -/
def hammingDist : Str → Str → Nat
  | [], _ => 0
  | _ :: _, [] => 0
  | a :: s, b :: t => (if a = b then 0 else 1) + hammingDist s t

lemma slice_length (s : Str) (a b : Nat) :
    (slice s a b).length = min (b - a) (s.length - a) := by
  simp [slice]

lemma slice_length_of_le {s : Str} {a k : Nat} (h : a + k ≤ s.length) :
    (slice s a (a + k)).length = k := by
  rw [slice_length]; omega

lemma slice_getElem? (s : Str) (a b j : Nat) (hj : j < b - a) :
    (slice s a b)[j]? = s[a + j]? := by
  rw [slice, List.getElem?_take_of_lt hj, List.getElem?_drop]

lemma getD_appendEntry (d : SeedIndex) (key k2 : Str) (i : Nat) :
    getD (appendEntry d key i) k2 =
      if k2 = key then getD d k2 ++ [i] else getD d k2 := by
  induction d with
  | nil =>
    by_cases h : k2 = key
    · subst h; simp [appendEntry, getD]
    · simp [appendEntry, getD, h, Ne.symm h]
  | cons hd tl ih =>
    obtain ⟨k, v⟩ := hd
    by_cases hk : k = key
    · subst hk
      by_cases h2 : k2 = k
      · subst h2; simp [appendEntry, getD]
      · simp [appendEntry, getD, h2, Ne.symm h2]
    · by_cases h2 : k = k2
      · simp [appendEntry, getD, hk, h2,
          show ¬(k2 = key) from fun hh => hk (h2.trans hh)]
      · simp [appendEntry, getD, hk, h2, ih]

lemma getD_foldl_appendEntry (f : Nat → Str) (key : Str) :
    ∀ (l : List Nat) (d0 : SeedIndex),
      getD (l.foldl (fun d i => appendEntry d (f i) i) d0) key =
        getD d0 key ++ l.filter (fun i => decide (f i = key)) := by
  intro l
  induction l with
  | nil => intro d0; simp
  | cons x xs ih =>
    intro d0
    rw [List.foldl_cons, ih, getD_appendEntry]
    by_cases h : key = f x
    · simp [h, List.filter_cons]
    · have h2 : ¬ (f x = key) := fun hh => h hh.symm
      simp [h, h2, List.filter_cons]

lemma getD_build (ref : Str) (k : Nat) (seed : Str) :
    getD (build_seed_index ref k) seed =
      (List.range (ref.length + 1 - k)).filter
        (fun i => decide (slice ref i (i + k) = seed)) := by
  rw [build_seed_index, getD_foldl_appendEntry]
  simp [getD]

lemma mem_getD_build {ref : Str} {k : Nat} {seed : Str} {h : Nat} :
    h ∈ getD (build_seed_index ref k) seed ↔
      h < ref.length + 1 - k ∧ slice ref h (h + k) = seed := by
  rw [getD_build]
  simp [List.mem_filter, List.mem_range]

lemma keyLength_of_getD_build {ref : Str} {k : Nat} {seed : Str}
    (h : getD (build_seed_index ref k) seed ≠ []) : seed.length = k := by
  obtain ⟨p, hp⟩ := List.exists_mem_of_ne_nil _ h
  rw [mem_getD_build] at hp
  obtain ⟨hlt, heq⟩ := hp
  have hk : p + k ≤ ref.length := by omega
  rw [← heq, slice_length_of_le hk]

lemma getD_build_eq_nil_of_short {ref : Str} {k : Nat} {seed : Str}
    (h : seed.length ≠ k) : getD (build_seed_index ref k) seed = [] := by
  by_contra hne
  exact h (keyLength_of_getD_build hne)

lemma mem_insertSorted {a x : Int} {l : List Int} :
    a ∈ insertSorted x l ↔ a = x ∨ a ∈ l := by
  induction l with
  | nil => simp [insertSorted]
  | cons y ys ih =>
    by_cases h1 : x < y
    · simp [insertSorted, h1]
    · by_cases h2 : x = y
      · rw [insertSorted, if_neg h1, if_pos h2]
        subst h2
        simp only [List.mem_cons]
        tauto
      · simp only [insertSorted, if_neg h1, if_neg h2, List.mem_cons, ih]
        tauto

lemma pairwise_insertSorted {x : Int} {l : List Int}
    (h : l.Pairwise (· < ·)) :
    (insertSorted x l).Pairwise (· < ·) := by
  induction l with
  | nil => simp [insertSorted]
  | cons y ys ih =>
    rw [List.pairwise_cons] at h
    obtain ⟨hy, hys⟩ := h
    by_cases h1 : x < y
    · rw [insertSorted, if_pos h1, List.pairwise_cons]
      refine ⟨?_, by rw [List.pairwise_cons]; exact ⟨hy, hys⟩⟩
      intro b hb
      rcases List.mem_cons.mp hb with hb | hb
      · exact hb ▸ h1
      · exact lt_trans h1 (hy b hb)
    · by_cases h2 : x = y
      · rw [insertSorted, if_neg h1, if_pos h2, List.pairwise_cons]
        exact ⟨hy, hys⟩
      · rw [insertSorted, if_neg h1, if_neg h2, List.pairwise_cons]
        have hyx : y < x := by omega
        refine ⟨?_, ih hys⟩
        intro b hb
        rcases mem_insertSorted.mp hb with hb | hb
        · exact hb ▸ hyx
        · exact hy b hb

lemma mem_sortedSet {a : Int} {l : List Int} :
    a ∈ sortedSet l ↔ a ∈ l := by
  induction l with
  | nil => simp [sortedSet]
  | cons y ys ih =>
    rw [sortedSet, List.foldr_cons, mem_insertSorted]
    rw [sortedSet] at ih
    simp [ih]

lemma pairwise_sortedSet (l : List Int) :
    (sortedSet l).Pairwise (· < ·) := by
  induction l with
  | nil => simp [sortedSet]
  | cons y ys ih => exact pairwise_insertSorted ih

lemma insertSorted_ne_nil (x : Int) (l : List Int) :
    insertSorted x l ≠ [] := by
  cases l with
  | nil => simp [insertSorted]
  | cons y ys =>
    rw [insertSorted]
    by_cases h1 : x < y
    · simp [h1]
    · by_cases h2 : x = y <;> simp [h1, h2]

lemma sortedSet_eq_nil_iff {l : List Int} : sortedSet l = [] ↔ l = [] := by
  cases l with
  | nil => simp [sortedSet]
  | cons y ys =>
    simp only [sortedSet, List.foldr_cons]
    exact ⟨fun h => absurd h (insertSorted_ne_nil _ _), fun h => by simp at h⟩

lemma selBest_cons (x y : Int × Nat) (ys : List (Int × Nat)) :
    selBest x (y :: ys) = selBest (if y.2 < x.2 then y else x) ys := rfl

lemma selBest_mem (x : Int × Nat) (l : List (Int × Nat)) :
    selBest x l ∈ x :: l := by
  induction l generalizing x with
  | nil => simp [selBest]
  | cons y ys ih =>
    rw [selBest_cons]
    by_cases hy : y.2 < x.2
    · rw [if_pos hy]
      rcases List.mem_cons.mp (ih y) with h | h
      · rw [h]; exact List.mem_cons.mpr (Or.inr (List.mem_cons_self _ _))
      · exact List.mem_cons.mpr (Or.inr (List.mem_cons.mpr (Or.inr h)))
    · rw [if_neg hy]
      rcases List.mem_cons.mp (ih x) with h | h
      · rw [h]; exact List.mem_cons_self _ _
      · exact List.mem_cons.mpr (Or.inr (List.mem_cons.mpr (Or.inr h)))

lemma selBest_le (x : Int × Nat) (l : List (Int × Nat)) :
    ∀ c ∈ x :: l, (selBest x l).2 ≤ c.2 := by
  induction l generalizing x with
  | nil =>
    intro c hc
    rw [List.mem_singleton] at hc
    subst hc
    simp [selBest]
  | cons y ys ih =>
    intro c hc
    rw [selBest_cons]
    by_cases hy : y.2 < x.2
    · rw [if_pos hy]
      rcases List.mem_cons.mp hc with hc | hc
      · subst hc
        exact le_trans (ih y y (List.mem_cons_self _ _)) (le_of_lt hy)
      · exact ih y c hc
    · rw [if_neg hy]
      rcases List.mem_cons.mp hc with hc | hc
      · subst hc
        exact ih c c (List.mem_cons_self _ _)
      · rcases List.mem_cons.mp hc with hc | hc
        · subst hc
          exact le_trans (ih x x (List.mem_cons_self _ _)) (le_of_not_lt hy)
        · exact ih x c (List.mem_cons.mpr (Or.inr hc))

lemma selBest_eq_or_lt (x : Int × Nat) (l : List (Int × Nat)) :
    selBest x l = x ∨ (selBest x l).2 < x.2 := by
  induction l generalizing x with
  | nil => left; rfl
  | cons y ys ih =>
    rw [selBest_cons]
    by_cases hy : y.2 < x.2
    · rw [if_pos hy]
      rcases ih y with h | h
      · right; rw [h]; exact hy
      · right; exact lt_trans h hy
    · rw [if_neg hy]; exact ih x

lemma selBest_tiebreak (x : Int × Nat) (l : List (Int × Nat))
    (hsort : (x :: l).Pairwise (fun a b => a.1 < b.1)) :
    ∀ c ∈ x :: l, c.2 = (selBest x l).2 → (selBest x l).1 ≤ c.1 := by
  induction l generalizing x with
  | nil =>
    intro c hc _
    rw [List.mem_singleton] at hc
    subst hc
    simp [selBest]
  | cons y ys ih =>
    rw [List.pairwise_cons] at hsort
    obtain ⟨hx, hrest⟩ := hsort
    have hyys := hrest
    rw [List.pairwise_cons] at hyys
    obtain ⟨hy, hys⟩ := hyys
    intro c hc hce
    rw [selBest_cons] at hce ⊢
    by_cases hlt : y.2 < x.2
    · rw [if_pos hlt] at hce ⊢
      rcases List.mem_cons.mp hc with hc | hc
      · subst hc
        exfalso
        have h1 : (selBest y ys).2 ≤ y.2 :=
          selBest_le y ys y (List.mem_cons_self _ _)
        omega
      · exact ih y hrest c hc hce
    · rw [if_neg hlt] at hce ⊢
      have hxys : (x :: ys).Pairwise (fun a b : Int × Nat => a.1 < b.1) := by
        rw [List.pairwise_cons]
        exact ⟨fun b hb =>
          lt_trans (hx y (List.mem_cons_self _ _)) (hy b hb), hys⟩
      rcases List.mem_cons.mp hc with hc | hc
      · subst hc
        exact ih c hxys c (List.mem_cons_self _ _) hce
      · rcases List.mem_cons.mp hc with hc | hc
        · subst hc
          have h1 : (selBest x ys).2 ≤ x.2 :=
            selBest_le x ys x (List.mem_cons_self _ _)
          have h2 : selBest x ys = x := by
            rcases selBest_eq_or_lt x ys with h | h
            · exact h
            · exfalso; omega
          rw [h2]
          exact le_of_lt (hx c (List.mem_cons_self _ _))
        · exact ih x hxys c (List.mem_cons.mpr (Or.inr hc)) hce

lemma mem_candidateStartsList {index : SeedIndex} {read : Str}
    {read_len seed_len : Nat} {seed_offsets : List Nat} {ref_len : Nat}
    {s : Int} :
    s ∈ candidateStartsList index read read_len seed_len seed_offsets
        ref_len ↔
      ∃ o ∈ seed_offsets, ∃ h ∈ getD index (slice read o (o + seed_len)),
        s = (h : Int) - (o : Int) ∧ 0 ≤ s ∧
          s + (read_len : Int) ≤ (ref_len : Int) := by
  constructor
  · intro hs
    rw [candidateStartsList, List.mem_flatten] at hs
    obtain ⟨l, hl, hsl⟩ := hs
    rw [List.mem_map] at hl
    obtain ⟨o, ho, rfl⟩ := hl
    rw [List.mem_filter] at hsl
    obtain ⟨hsm, hsr⟩ := hsl
    rw [List.mem_map] at hsm
    obtain ⟨hit, hhit, heq⟩ := hsm
    rw [inRange, decide_eq_true_eq] at hsr
    exact ⟨o, ho, hit, hhit, heq.symm, hsr.1, hsr.2⟩
  · rintro ⟨o, ho, hit, hhit, hseq, h0, h1⟩
    subst hseq
    rw [candidateStartsList, List.mem_flatten]
    refine ⟨((getD index (slice read o (o + seed_len))).map
        (fun hit2 : Nat => (hit2 : Int) - (o : Int))).filter
          (inRange read_len ref_len), ?_, ?_⟩
    · exact List.mem_map_of_mem _ ho
    · rw [List.mem_filter]
      constructor
      · exact List.mem_map_of_mem _ hhit
      · rw [inRange, decide_eq_true_eq]
        exact ⟨h0, h1⟩

lemma candidate_bounds {index : SeedIndex} {read : Str}
    {read_len seed_len : Nat} {seed_offsets : List Nat} {ref_len : Nat}
    {p : Int}
    (hp : p ∈ sortedSet (candidateStartsList index read read_len seed_len
      seed_offsets ref_len)) :
    0 ≤ p ∧ p + (read_len : Int) ≤ (ref_len : Int) := by
  rw [mem_sortedSet, mem_candidateStartsList] at hp
  obtain ⟨o, _, h, _, _, h0, h1⟩ := hp
  exact ⟨h0, h1⟩

lemma countP_zip_eq_hammingDist :
    ∀ (w r : Str),
      (w.zip r).countP (fun p => decide (p.1 ≠ p.2)) = hammingDist w r
  | [], r => by simp [hammingDist]
  | _ :: _, [] => by simp [hammingDist]
  | a :: s, b :: t => by
    rw [List.zip_cons_cons, List.countP_cons,
      countP_zip_eq_hammingDist s t, hammingDist]
    by_cases h : a = b
    · simp [h]
    · simp only [h, if_false, decide_not]
      simp [h]
      omega

lemma hammingDist_comm : ∀ (s t : Str), hammingDist s t = hammingDist t s
  | [], [] => rfl
  | [], _ :: _ => rfl
  | _ :: _, [] => rfl
  | a :: s, b :: t => by
    rw [hammingDist, hammingDist, hammingDist_comm s t]
    by_cases h : a = b
    · rw [if_pos h, if_pos h.symm]
    · rw [if_neg h, if_neg (show ¬(b = a) from fun hh => h hh.symm)]

lemma hammingDist_self : ∀ (s : Str), hammingDist s s = 0
  | [] => rfl
  | a :: s => by rw [hammingDist, hammingDist_self s, if_pos rfl]

lemma npMismatches_eq_hammingDist {w r : Str} (h : r.length = w.length) :
    npMismatches w r = hammingDist r w := by
  rw [npMismatches, if_pos h, countP_zip_eq_hammingDist, hammingDist_comm]

lemma windowAt_length {ref : Str} {p : Int} {read_len : Nat}
    (h0 : 0 ≤ p) (h1 : p + (read_len : Int) ≤ (ref.length : Int)) :
    (windowAt ref p read_len).length = read_len := by
  rw [windowAt]
  exact slice_length_of_le (by omega)

lemma scoreAndSelect_mem (ref : Str) (read_len : Nat) (read : Str)
    (c : Int) (rest : List Int) :
    ∃ p ∈ c :: rest, scoreAndSelect ref read_len read c rest =
      (p, npMismatches (windowAt ref p read_len) read) := by
  have h := selBest_mem (c, npMismatches (windowAt ref c read_len) read)
    (rest.map (fun p => (p, npMismatches (windowAt ref p read_len) read)))
  rw [scoreAndSelect]
  rcases List.mem_cons.mp h with h | h
  · exact ⟨c, List.mem_cons_self _ _, h⟩
  · rw [List.mem_map] at h
    obtain ⟨p, hp, hpe⟩ := h
    exact ⟨p, List.mem_cons.mpr (Or.inr hp), hpe.symm⟩

lemma scoreAndSelect_min (ref : Str) (read_len : Nat) (read : Str)
    (c : Int) (rest : List Int) :
    ∀ q ∈ c :: rest, (scoreAndSelect ref read_len read c rest).2 ≤
      npMismatches (windowAt ref q read_len) read := by
  intro q hq
  rcases List.mem_cons.mp hq with hq | hq
  · subst hq
    exact selBest_le _ _ _ (List.mem_cons_self _ _)
  · exact selBest_le _ _ (q, npMismatches (windowAt ref q read_len) read)
      (List.mem_cons.mpr (Or.inr (List.mem_map_of_mem _ hq)))

lemma scoreAndSelect_tiebreak (ref : Str) (read_len : Nat) (read : Str)
    (c : Int) (rest : List Int) (hsort : (c :: rest).Pairwise (· < ·)) :
    ∀ q ∈ c :: rest,
      npMismatches (windowAt ref q read_len) read =
        (scoreAndSelect ref read_len read c rest).2 →
      (scoreAndSelect ref read_len read c rest).1 ≤ q := by
  intro q hq hqe
  have hmap : ((c :: rest).map
      (fun p => (p, npMismatches (windowAt ref p read_len) read))).Pairwise
      (fun a b : Int × Nat => a.1 < b.1) := by
    apply List.Pairwise.map
    · intro a b hab
      exact hab
    · exact hsort
  rw [List.map_cons] at hmap
  have := selBest_tiebreak _ _ hmap
    (q, npMismatches (windowAt ref q read_len) read) ?_ hqe
  · exact this
  · rcases List.mem_cons.mp hq with hq | hq
    · subst hq; exact List.mem_cons_self _ _
    · exact List.mem_cons.mpr (Or.inr (List.mem_map_of_mem _ hq))

lemma mapOne_eq_of_nil {ref : Str} {index : SeedIndex}
    {read_len seed_len : Nat} {seed_offsets : List Nat} {read : Str}
    (hc : sortedSet (candidateStartsList index read read_len seed_len
      seed_offsets ref.length) = []) :
    mapOne ref index read_len seed_len seed_offsets read =
      Except.ok (-1, -1) := by
  simp only [mapOne, hc]

lemma mapOne_eq_of_cons {ref : Str} {index : SeedIndex}
    {read_len seed_len : Nat} {seed_offsets : List Nat} {read : Str}
    {c : Int} {rest : List Int}
    (hc : sortedSet (candidateStartsList index read read_len seed_len
      seed_offsets ref.length) = c :: rest)
    (hb : broadcastOk read.length read_len = true) :
    mapOne ref index read_len seed_len seed_offsets read =
      Except.ok ((scoreAndSelect ref read_len read c rest).1,
        ((scoreAndSelect ref read_len read c rest).2 : Int)) := by
  simp only [mapOne, hc, hb, if_true]

lemma mapOne_eq_of_cons_err {ref : Str} {index : SeedIndex}
    {read_len seed_len : Nat} {seed_offsets : List Nat} {read : Str}
    {c : Int} {rest : List Int}
    (hc : sortedSet (candidateStartsList index read read_len seed_len
      seed_offsets ref.length) = c :: rest)
    (hb : broadcastOk read.length read_len = false) :
    mapOne ref index read_len seed_len seed_offsets read =
      Except.error "operands could not be broadcast together" := by
  simp only [mapOne, hc, hb]
  rfl

lemma score_eq_hamming {ref read : Str} {read_len seed_len : Nat}
    {seed_offsets : List Nat} {index : SeedIndex}
    (hlen : read.length = read_len) {q : Int}
    (hq : q ∈ sortedSet (candidateStartsList index read read_len seed_len
      seed_offsets ref.length)) :
    npMismatches (windowAt ref q read_len) read =
      hammingDist read (windowAt ref q read_len) := by
  have hbq := candidate_bounds hq
  apply npMismatches_eq_hammingDist
  rw [windowAt_length hbq.1 hbq.2, hlen]

/-- C1: for every read (of the configured length) whose candidate set is
non-empty, `mapOne` — the per-read body of vecmap — returns an
`Except.ok (p, m)` where `p` is a member of the sorted candidate list,
`m` is a lower bound of the mismatch count of every candidate window,
and any candidate whose mismatch count ties `m` lies at or after `p`
(so `p` is the lowest tied start position, numpy argmin keeping the
first minimum of the ascending candidate list). -/
theorem C1_min_mismatch_lowest_position
    (ref read : Str) (read_len seed_len : Nat) (seed_offsets : List Nat)
    (p m : Int)
    (hlen : read.length = read_len)
    (hok : mapOne ref (build_seed_index ref seed_len) read_len seed_len
      seed_offsets read = Except.ok (p, m))
    (hne : sortedSet (candidateStartsList (build_seed_index ref seed_len)
      read read_len seed_len seed_offsets ref.length) ≠ []) :
    p ∈ sortedSet (candidateStartsList (build_seed_index ref seed_len)
        read read_len seed_len seed_offsets ref.length) ∧
    (∀ q ∈ sortedSet (candidateStartsList (build_seed_index ref seed_len)
        read read_len seed_len seed_offsets ref.length),
      m ≤ (hammingDist read (windowAt ref q read_len) : Int)) ∧
    (∀ q ∈ sortedSet (candidateStartsList (build_seed_index ref seed_len)
        read read_len seed_len seed_offsets ref.length),
      (hammingDist read (windowAt ref q read_len) : Int) = m → p ≤ q) := by
  obtain ⟨c, rest, hc⟩ := List.exists_cons_of_ne_nil hne
  have hb : broadcastOk read.length read_len = true := by
    simp [broadcastOk, hlen]
  rw [mapOne_eq_of_cons hc hb, Except.ok.injEq, Prod.mk.injEq] at hok
  obtain ⟨hp, hm⟩ := hok
  refine ⟨?_, ?_, ?_⟩
  · obtain ⟨q, hq, hsel⟩ := scoreAndSelect_mem ref read_len read c rest
    rw [hc, ← hp, hsel]
    exact hq
  · intro q hq
    have hq2 := hq
    rw [hc] at hq2
    have hmin := scoreAndSelect_min ref read_len read c rest q hq2
    rw [score_eq_hamming hlen hq] at hmin
    omega
  · intro q hq hqm
    have hq2 := hq
    rw [hc] at hq2
    have hpair := pairwise_sortedSet (candidateStartsList
      (build_seed_index ref seed_len) read read_len seed_len seed_offsets
      ref.length)
    rw [hc] at hpair
    have htie := scoreAndSelect_tiebreak ref read_len read c rest hpair
      q hq2 ?_
    · rw [← hp]; exact htie
    · rw [score_eq_hamming hlen hq]
      omega

/-- Witness for C1 at a concrete input: reference ACGTACGT, read ACGT,
read length 4, seed length 2, offsets 0 and 2; the candidate list is
[0, 4], both candidates score 0 mismatches, and the returned pair is
(0, 0): the tie is broken toward the lowest position. -/
theorem C1_witness :
    (0 : Int) ∈ sortedSet (candidateStartsList
        (build_seed_index ['A','C','G','T','A','C','G','T'] 2)
        ['A','C','G','T'] 4 2 [0, 2]
        (['A','C','G','T','A','C','G','T'] : Str).length) ∧
    (∀ q ∈ sortedSet (candidateStartsList
        (build_seed_index ['A','C','G','T','A','C','G','T'] 2)
        ['A','C','G','T'] 4 2 [0, 2]
        (['A','C','G','T','A','C','G','T'] : Str).length),
      (0 : Int) ≤ (hammingDist ['A','C','G','T']
        (windowAt ['A','C','G','T','A','C','G','T'] q 4) : Int)) ∧
    (∀ q ∈ sortedSet (candidateStartsList
        (build_seed_index ['A','C','G','T','A','C','G','T'] 2)
        ['A','C','G','T'] 4 2 [0, 2]
        (['A','C','G','T','A','C','G','T'] : Str).length),
      (hammingDist ['A','C','G','T']
        (windowAt ['A','C','G','T','A','C','G','T'] q 4) : Int) = 0 →
        (0 : Int) ≤ q) :=
  C1_min_mismatch_lowest_position
    ['A','C','G','T','A','C','G','T'] ['A','C','G','T'] 4 2 [0, 2] 0 0
    (by decide) (by rfl) (by decide)

/-- C2: the per-read body of vecmap returns the ordinary output value
`Except.ok (-1, -1)` — never an exception — precisely when the sorted
candidate list produced by seed probing is empty. -/
theorem C2_sentinel_iff_no_candidates (ref read : Str)
    (read_len seed_len : Nat) (seed_offsets : List Nat) :
    mapOne ref (build_seed_index ref seed_len) read_len seed_len
        seed_offsets read = Except.ok (-1, -1) ↔
      sortedSet (candidateStartsList (build_seed_index ref seed_len) read
        read_len seed_len seed_offsets ref.length) = [] := by
  constructor
  · intro hok
    by_contra hne
    obtain ⟨c, rest, hc⟩ := List.exists_cons_of_ne_nil hne
    by_cases hb : broadcastOk read.length read_len = true
    · rw [mapOne_eq_of_cons hc hb, Except.ok.injEq, Prod.mk.injEq] at hok
      obtain ⟨hp, _⟩ := hok
      obtain ⟨q, hq, hsel⟩ := scoreAndSelect_mem ref read_len read c rest
      have hbq := candidate_bounds (p := q) (by rw [hc]; exact hq)
      rw [hsel] at hp
      omega
    · rw [Bool.not_eq_true] at hb
      rw [mapOne_eq_of_cons_err hc hb] at hok
      exact Except.noConfusion hok
  · intro hempty
    exact mapOne_eq_of_nil hempty

/-- C6: for every read of the configured length with a non-empty
candidate set, the mismatch count returned by the per-read body of
vecmap equals the Hamming distance between the read and the reference
window `reference[p : p + read_len]` at the returned position `p`. -/
theorem C6_returned_count_is_hamming
    (ref read : Str) (read_len seed_len : Nat) (seed_offsets : List Nat)
    (p m : Int)
    (hlen : read.length = read_len)
    (hok : mapOne ref (build_seed_index ref seed_len) read_len seed_len
      seed_offsets read = Except.ok (p, m))
    (hne : sortedSet (candidateStartsList (build_seed_index ref seed_len)
      read read_len seed_len seed_offsets ref.length) ≠ []) :
    m = (hammingDist read
      (slice ref p.toNat (p.toNat + read_len)) : Int) := by
  obtain ⟨c, rest, hc⟩ := List.exists_cons_of_ne_nil hne
  have hb : broadcastOk read.length read_len = true := by
    simp [broadcastOk, hlen]
  rw [mapOne_eq_of_cons hc hb, Except.ok.injEq, Prod.mk.injEq] at hok
  obtain ⟨hp, hm⟩ := hok
  obtain ⟨q, hq, hsel⟩ := scoreAndSelect_mem ref read_len read c rest
  have hqmem : q ∈ sortedSet (candidateStartsList
      (build_seed_index ref seed_len) read read_len seed_len seed_offsets
      ref.length) := by rw [hc]; exact hq
  have hpq : p = q := by rw [← hp, hsel]
  subst hpq
  rw [← hm, hsel]
  rw [score_eq_hamming hlen hqmem]
  rfl

/-- Witness for C6 at the same concrete input as C1: the returned count
0 equals the Hamming distance between ACGT and the window at position
0 of ACGTACGT. -/
theorem C6_witness :
    (0 : Int) = (hammingDist ['A','C','G','T']
      (slice ['A','C','G','T','A','C','G','T'] (0 : Int).toNat
        ((0 : Int).toNat + 4)) : Int) :=
  C6_returned_count_is_hamming
    ['A','C','G','T','A','C','G','T'] ['A','C','G','T'] 4 2 [0, 2] 0 0
    (by decide) (by rfl) (by decide)

/-- C5: the candidate list passed to scoring is exactly the
deduplicated, strictly ascending enumeration of the start positions
`h - o` over configured offsets `o` and index hits `h` of
`read[o : o + seed_len]`, restricted to `0 ≤ s ≤ N - L`; and it is
complete: a full-length exact occurrence of the read's seed at offset
`o` at reference position `h` puts `h - o` in the candidate list
whenever it satisfies the range restriction. -/
theorem C5_candidate_set_characterization
    (ref read : Str) (read_len seed_len : Nat) (seed_offsets : List Nat) :
    (∀ s : Int,
      s ∈ sortedSet (candidateStartsList (build_seed_index ref seed_len)
          read read_len seed_len seed_offsets ref.length) ↔
        ∃ o ∈ seed_offsets,
          ∃ h ∈ getD (build_seed_index ref seed_len)
            (slice read o (o + seed_len)),
            s = (h : Int) - (o : Int) ∧ 0 ≤ s ∧
              s + (read_len : Int) ≤ (ref.length : Int)) ∧
    (sortedSet (candidateStartsList (build_seed_index ref seed_len)
        read read_len seed_len seed_offsets
        ref.length)).Pairwise (· < ·) ∧
    (∀ o ∈ seed_offsets, ∀ h : Nat,
      o + seed_len ≤ read.length → h + seed_len ≤ ref.length →
      slice ref h (h + seed_len) = slice read o (o + seed_len) →
      0 ≤ (h : Int) - (o : Int) →
      (h : Int) - (o : Int) + (read_len : Int) ≤ (ref.length : Int) →
      (h : Int) - (o : Int) ∈ sortedSet (candidateStartsList
        (build_seed_index ref seed_len) read read_len seed_len
        seed_offsets ref.length)) := by
  refine ⟨?_, pairwise_sortedSet _, ?_⟩
  · intro s
    rw [mem_sortedSet, mem_candidateStartsList]
  · intro o ho h _ hrefk hoc h0 h1
    rw [mem_sortedSet, mem_candidateStartsList]
    refine ⟨o, ho, h, ?_, rfl, h0, h1⟩
    rw [mem_getD_build]
    exact ⟨by omega, hoc⟩

/-- Witness for C5 at a concrete input: in ACGTACGT with seed length 2,
the exact seed AC of read ACGT at offset 0 also occurs at reference
position 4, so candidate 4 - 0 is produced. -/
theorem C5_witness :
    ((4 : Nat) : Int) - ((0 : Nat) : Int) ∈
      sortedSet (candidateStartsList
        (build_seed_index ['A','C','G','T','A','C','G','T'] 2)
        ['A','C','G','T'] 4 2 [0, 2]
        (['A','C','G','T','A','C','G','T'] : Str).length) :=
  (C5_candidate_set_characterization
    ['A','C','G','T','A','C','G','T'] ['A','C','G','T'] 4 2 [0, 2]).2.2
    0 (by decide) 4 (by decide) (by decide) (by decide) (by decide)
    (by decide)

/-- C10: a configured seed offset `o` with `o + seed_len` beyond the
end of the read extracts a slice shorter than `seed_len`, which matches
no key of the seed index (all keys have length `seed_len`, which the
spec requires to be at least 1) and so contributes no candidates and no
error; in particular, with the default offsets 0, 20, 40, 60, 80 and a
read of length 20, only offset 0 ever yields candidates. -/
theorem C10_overrunning_offsets_contribute_nothing :
    (∀ (ref read : Str) (seed_len o : Nat), 1 ≤ seed_len →
      read.length < o + seed_len →
      getD (build_seed_index ref seed_len)
        (slice read o (o + seed_len)) = []) ∧
    (∀ (ref read : Str) (read_len : Nat), read.length = 20 →
      sortedSet (candidateStartsList (build_seed_index ref 20) read
        read_len 20 [0, 20, 40, 60, 80] ref.length) =
      sortedSet (candidateStartsList (build_seed_index ref 20) read
        read_len 20 [0] ref.length)) := by
  constructor
  · intro ref read seed_len o hk ho
    apply getD_build_eq_nil_of_short
    rw [slice_length, Nat.min_def]
    split <;> omega
  · intro ref read read_len hlen
    have hz : ∀ o : Nat, read.length < o + 20 →
        getD (build_seed_index ref 20) (slice read o (o + 20)) = [] := by
      intro o ho
      apply getD_build_eq_nil_of_short
      rw [slice_length, Nat.min_def]
      split <;> omega
    rw [candidateStartsList, candidateStartsList]
    simp only [List.map_cons, List.map_nil]
    rw [hz 20 (by omega), hz 40 (by omega), hz 60 (by omega),
      hz 80 (by omega)]
    simp

/-- Witness for C10: offset 1 with seed length 2 overruns the length-1
read and finds nothing; and on the empty reference a candidate list with
the default offsets equals the one probing offset 0 alone. -/
theorem C10_witness :
    getD (build_seed_index ['A','C'] 2) (slice ['A'] 1 (1 + 2)) = [] ∧
    sortedSet (candidateStartsList (build_seed_index [] 20)
        (List.replicate 20 'A') 20 20 [0, 20, 40, 60, 80]
        ([] : Str).length) =
      sortedSet (candidateStartsList (build_seed_index [] 20)
        (List.replicate 20 'A') 20 20 [0] ([] : Str).length) :=
  ⟨C10_overrunning_offsets_contribute_nothing.1 ['A','C'] ['A'] 2 1
      (by decide) (by decide),
   C10_overrunning_offsets_contribute_nothing.2 []
      (List.replicate 20 'A') 20 (by decide)⟩

/-- Counterexample to C3: with `read_len = 4` greater than the
reference length 2 — an invalid configuration that the claim says is
rejected at construction time with a descriptive error before any read
is processed — vecmap raises nothing: it runs the batch and returns the
ordinary unmapped sentinel for the read. -/
theorem C3_counterexample :
    vecmap ['A','C'] [(['A','C','G','T'], (0 : Nat))] 4 2 [0] =
        Except.ok [(-1, -1, 0)] ∧
      ∀ e : String, vecmap ['A','C'] [(['A','C','G','T'], (0 : Nat))]
        4 2 [0] ≠ Except.error e := by
  constructor
  · rfl
  · intro e h
    have h2 := h.symm.trans
      (show vecmap ['A','C'] [(['A','C','G','T'], (0 : Nat))] 4 2 [0] =
        Except.ok [(-1, -1, 0)] from rfl)
    exact Except.noConfusion h2

/-- C3 as amended: vecmap performs no construction-time validation at
all; under an invalid configuration (`read_len` exceeding the reference
length — which subsumes an empty reference with nonzero `read_len` —
or `seed_len` exceeding `read_len`) the whole batch still runs and
every read of the configured length is reported with the `(-1, -1)`
sentinel instead of an error being raised. -/
theorem C3_amended_no_validation_all_unmapped {ι : Type}
    (ref : Str) (reads : List (Str × ι)) (read_len seed_len : Nat)
    (seed_offsets : List Nat)
    (hbad : ref.length < read_len ∨ read_len < seed_len)
    (hreads : ∀ r ∈ reads, r.1.length = read_len) :
    vecmap ref reads read_len seed_len seed_offsets =
      Except.ok (reads.map (fun r => (-1, -1, r.2))) := by
  have hone : ∀ read2 : Str, read2.length = read_len →
      mapOne ref (build_seed_index ref seed_len) read_len seed_len
        seed_offsets read2 = Except.ok (-1, -1) := by
    intro read2 hlen2
    apply mapOne_eq_of_nil
    by_contra hne
    obtain ⟨s, hs⟩ := List.exists_mem_of_ne_nil _ hne
    rw [mem_sortedSet, mem_candidateStartsList] at hs
    obtain ⟨o, ho, h, hh, hseq, h0, h1⟩ := hs
    rcases hbad with hbad | hbad
    · omega
    · have hnil : getD (build_seed_index ref seed_len)
          (slice read2 o (o + seed_len)) = [] := by
        apply getD_build_eq_nil_of_short
        rw [slice_length, Nat.min_def]
        split <;> omega
      rw [hnil] at hh
      exact absurd hh (List.not_mem_nil _)
  rw [vecmap]
  revert hreads
  induction reads with
  | nil => intro _; rfl
  | cons r rs ih =>
    intro hreads
    obtain ⟨read2, id2⟩ := r
    simp only [vecmapGo]
    rw [hone read2 (hreads _ (List.mem_cons_self _ _)),
      ih (fun x hx => hreads x (List.mem_cons.mpr (Or.inr hx)))]
    rfl

/-- Witness for the amended C3: a reference of length 2 with
`read_len = 4` yields the all-sentinel batch, not an error. -/
theorem C3_amended_witness :
    vecmap ['A','C'] [(['A','C','G','T'], (5 : Nat))] 4 2 [0, 2] =
      Except.ok ([(['A','C','G','T'], (5 : Nat))].map
        (fun r => (-1, -1, r.2))) :=
  C3_amended_no_validation_all_unmapped ['A','C']
    [(['A','C','G','T'], 5)] 4 2 [0, 2] (Or.inl (by decide))
    (by decide)

/-- Counterexample to C4: a batch whose second read has length 5
instead of the configured `read_len = 3` and still produces candidates:
the batched numpy comparison raises a broadcast error, the whole call
aborts, and the already-computed result of the first (well-formed) read
is discarded — no other read "still appears in the output". -/
theorem C4_counterexample :
    vecmap ['A','C','A','C']
      [(['A','C','A'], (0 : Nat)), (['A','C','A','C','A'], 1)] 3 2 [0] =
      Except.error "operands could not be broadcast together" := by
  rfl

/-- C4 as amended: the per-read body of vecmap raises an error exactly
when the read's candidate set is non-empty and the read's length is
broadcast-incompatible with `read_len`; a wrong-length read is reported
locally with the sentinel only when its candidate set is empty (or its
length happens to be broadcast-compatible), and once the error is
raised it aborts the whole remaining batch. -/
theorem C4_amended_wrong_length_aborts
    (ref : Str) (index : SeedIndex) (read_len seed_len : Nat)
    (seed_offsets : List Nat) (read : Str) :
    ((∃ e, mapOne ref index read_len seed_len seed_offsets read =
        Except.error e) ↔
      (sortedSet (candidateStartsList index read read_len seed_len
          seed_offsets ref.length) ≠ [] ∧
        broadcastOk read.length read_len = false)) ∧
    (∀ (e : String) (id : Nat) (rest : List (Str × Nat)),
      mapOne ref index read_len seed_len seed_offsets read =
        Except.error e →
      vecmapGo ref index read_len seed_len seed_offsets
        ((read, id) :: rest) = Except.error e) := by
  constructor
  · constructor
    · rintro ⟨e, he⟩
      rcases hcs : sortedSet (candidateStartsList index read read_len
        seed_len seed_offsets ref.length) with _ | ⟨c, rest⟩
      · rw [mapOne_eq_of_nil hcs] at he
        exact Except.noConfusion he
      · refine ⟨by simp, ?_⟩
        by_cases hb : broadcastOk read.length read_len = true
        · rw [mapOne_eq_of_cons hcs hb] at he
          exact Except.noConfusion he
        · rwa [Bool.not_eq_true] at hb
    · rintro ⟨hne, hb⟩
      obtain ⟨c, rest, hc⟩ := List.exists_cons_of_ne_nil hne
      exact ⟨_, mapOne_eq_of_cons_err hc hb⟩
  · intro e id rest he
    simp only [vecmapGo, he]

/-- Witness for the amended C4: the length-5 read against `read_len =
3` has candidate 0 in reference ACAC, so its scoring step raises. -/
theorem C4_amended_witness :
    ∃ e, mapOne ['A','C','A','C'] (build_seed_index ['A','C','A','C'] 2)
      3 2 [0] ['A','C','A','C','A'] = Except.error e :=
  (C4_amended_wrong_length_aborts ['A','C','A','C']
    (build_seed_index ['A','C','A','C'] 2) 3 2 [0]
    ['A','C','A','C','A']).1.mpr ⟨by decide, by decide⟩

/-- Append `i` to the position list of a key already present (the numba
branch `index[seed].append(i)` taken when `seed in index`). -/
def appendExisting (d : SeedIndex) (key : Str) (i : Nat) : SeedIndex :=
  match d with
  | [] => []
  | (k, v) :: rest =>
    if k = key then (k, v ++ [i]) :: rest
    else (k, v) :: appendExisting rest key i

/-- `_build_seed_index_nb` from src/vecmap/core/mapper_numba.py: the
same left-to-right scan as `build_seed_index`, but with an explicit
membership test on the typed Dict: append when the seed is present,
otherwise insert a fresh singleton list at the end (insertion order). -/
def _build_seed_index_nb (ref : Str) (seed_len : Nat) : SeedIndex :=
  (List.range (ref.length + 1 - seed_len)).foldl
    (fun index i =>
      let seed := slice ref i (i + seed_len)
      if containsKey index seed then appendExisting index seed i
      else index ++ [(seed, [i])]) []

/-- `_get_candidate_starts_nb` from src/vecmap/core/mapper_numba.py:
loop over the offsets and, when the extracted seed is present in the
index, collect every in-range `hit - offset`. -/
def _get_candidate_starts_nb (index : SeedIndex) (read : Str)
    (read_len : Nat) (seed_offsets : List Nat) (seed_len : Nat)
    (ref_len : Nat) : List Int :=
  (seed_offsets.map (fun offset =>
    if containsKey index (slice read offset (offset + seed_len)) then
      ((getD index (slice read offset (offset + seed_len))).map
        (fun hit : Nat => (hit : Int) - (offset : Int))).filter
          (inRange read_len ref_len)
    else [])).flatten

/-- The body of `vecmap_numba` for one read: `sorted(set(...))` of the
numba-collected starts, the same `(-1, -1)` sentinel on emptiness, and
the identical numpy scoring and argmin selection lines. -/
def mapOneNb (ref : Str) (index : SeedIndex) (read_len seed_len : Nat)
    (seed_offsets : List Nat) (read : Str) : Except String (Int × Int) :=
  match sortedSet (_get_candidate_starts_nb index read read_len
      seed_offsets seed_len ref.length) with
  | [] => Except.ok (-1, -1)
  | c :: cs =>
    if broadcastOk read.length read_len then
      Except.ok ((scoreAndSelect ref read_len read c cs).1,
        ((scoreAndSelect ref read_len read c cs).2 : Int))
    else Except.error "operands could not be broadcast together"

/-- The per-read loop of `vecmap_numba` (appends `(-1, -1, read_id)`
and continues on an empty candidate list, otherwise the scored best). -/
def vecmap_numba_go {ι : Type} (ref : Str) (index : SeedIndex)
    (read_len seed_len : Nat) (seed_offsets : List Nat) :
    List (Str × ι) → Except String (List (Int × Int × ι))
  | [] => Except.ok []
  | (read, read_id) :: rest =>
    match mapOneNb ref index read_len seed_len seed_offsets read with
    | Except.error e => Except.error e
    | Except.ok (p, m) =>
      match vecmap_numba_go ref index read_len seed_len seed_offsets
          rest with
      | Except.error e => Except.error e
      | Except.ok ms => Except.ok ((p, m, read_id) :: ms)

/-- `vecmap_numba` from src/vecmap/core/mapper_numba.py. -/
def vecmap_numba {ι : Type} (ref : Str) (reads : List (Str × ι))
    (read_len seed_len : Nat) (seed_offsets : List Nat) :
    Except String (List (Int × Int × ι)) :=
  vecmap_numba_go ref (_build_seed_index_nb ref seed_len) read_len
    seed_len seed_offsets reads

lemma getD_eq_nil_of_not_contains {d : SeedIndex} {key : Str}
    (h : containsKey d key = false) : getD d key = [] := by
  induction d with
  | nil => rfl
  | cons hd tl ih =>
    obtain ⟨k, v⟩ := hd
    rw [containsKey, Bool.or_eq_false_iff] at h
    obtain ⟨h1, h2⟩ := h
    rw [getD, if_neg (by simpa using h1)]
    exact ih h2

lemma appendEntry_eq_nb (d : SeedIndex) (key : Str) (i : Nat) :
    appendEntry d key i =
      if containsKey d key then appendExisting d key i
      else d ++ [(key, [i])] := by
  induction d with
  | nil => rfl
  | cons hd tl ih =>
    obtain ⟨k, v⟩ := hd
    by_cases hk : k = key
    · rw [appendEntry, if_pos hk, containsKey, hk]
      simp [appendExisting]
    · rw [appendEntry, if_neg hk, containsKey]
      cases hc : containsKey tl key with
      | true =>
        rw [ih, if_pos (by rw [hc])]
        have : (decide (k = key) || true) = true := by simp
        rw [this, if_pos rfl, appendExisting, if_neg hk]
      | false =>
        rw [ih, if_neg (by rw [hc]; exact Bool.false_ne_true)]
        have : (decide (k = key) || false) = false := by
          simp [hk]
        rw [this]
        simp

lemma _build_seed_index_nb_eq (ref : Str) (seed_len : Nat) :
    _build_seed_index_nb ref seed_len = build_seed_index ref seed_len := by
  rw [_build_seed_index_nb, build_seed_index]
  have hstep : (fun (index : SeedIndex) (i : Nat) =>
      let seed := slice ref i (i + seed_len)
      if containsKey index seed then appendExisting index seed i
      else index ++ [(seed, [i])]) =
      (fun (index : SeedIndex) (i : Nat) =>
        appendEntry index (slice ref i (i + seed_len)) i) := by
    funext d i
    rw [appendEntry_eq_nb]
  rw [hstep]

lemma _get_candidate_starts_nb_eq (index : SeedIndex) (read : Str)
    (read_len seed_len : Nat) (seed_offsets : List Nat) (ref_len : Nat) :
    _get_candidate_starts_nb index read read_len seed_offsets seed_len
        ref_len =
      candidateStartsList index read read_len seed_len seed_offsets
        ref_len := by
  rw [_get_candidate_starts_nb, candidateStartsList]
  congr 1
  congr 1
  funext offset
  cases hc : containsKey index (slice read offset (offset + seed_len))
    with
  | true => rw [if_pos rfl]
  | false =>
    rw [if_neg Bool.false_ne_true]
    rw [getD_eq_nil_of_not_contains hc]
    simp

lemma mapOneNb_eq (ref : Str) (index : SeedIndex)
    (read_len seed_len : Nat) (seed_offsets : List Nat) (read : Str) :
    mapOneNb ref index read_len seed_len seed_offsets read =
      mapOne ref index read_len seed_len seed_offsets read := by
  rw [mapOneNb, mapOne, _get_candidate_starts_nb_eq]

/-- C7: the compiled backend `vecmap_numba` produces exactly the same
output as the baseline `vecmap` on every input — same ordered list of
(position, mismatches, identifier) triples, hence the same
lowest-position tie-break, the same `(-1, -1)` sentinel for empty
candidate sets, and the same broadcast-error behaviour. -/
theorem C7_numba_backend_equivalent {ι : Type} (ref : Str)
    (reads : List (Str × ι)) (read_len seed_len : Nat)
    (seed_offsets : List Nat) :
    vecmap_numba ref reads read_len seed_len seed_offsets =
      vecmap ref reads read_len seed_len seed_offsets := by
  rw [vecmap_numba, vecmap, _build_seed_index_nb_eq]
  induction reads with
  | nil => rfl
  | cons r rs ih =>
    obtain ⟨read, id⟩ := r
    simp only [vecmap_numba_go, vecmapGo, mapOneNb_eq, ih]

/-- Python `dict.get(key, default)` as an operation on the shared index
state: it returns the stored list (or the default) and leaves the
dictionary unchanged, even for an absent key.  vecmap's per-read
lookups use exactly this operation. -/
def dictGet (d : SeedIndex) (key : Str) : List Nat × SeedIndex :=
  (getD d key, d)

/-- Python `defaultdict.__getitem__` as an operation on the index
state: subscripting a missing key inserts it with the default empty
list.  This write operation is used only while the index is built
(`index[seed].append(i)`), never during per-read processing. -/
def defaultGetItem (d : SeedIndex) (key : Str) : List Nat × SeedIndex :=
  if containsKey d key then (getD d key, d)
  else ([], d ++ [(key, [])])

/-- Candidate generation with the seed-index state threaded through
every lookup, lookups of absent seeds included. -/
def candidateStartsS (index : SeedIndex) (read : Str)
    (read_len seed_len : Nat) (seed_offsets : List Nat) (ref_len : Nat) :
    List Int × SeedIndex :=
  seed_offsets.foldl
    (fun st offset =>
      let lk := dictGet st.2 (slice read offset (offset + seed_len))
      (st.1 ++ (lk.1.map
        (fun hit : Nat => (hit : Int) - (offset : Int))).filter
          (inRange read_len ref_len), lk.2))
    ([], index)

/-- The per-read body of vecmap with the threaded index state: the
returned state is whatever candidate generation left behind; scoring
and selection operate only on data local to the read. -/
def mapOneS (ref : Str) (index : SeedIndex) (read_len seed_len : Nat)
    (seed_offsets : List Nat) (read : Str) :
    Except String (Int × Int) × SeedIndex :=
  ((match sortedSet (candidateStartsS index read read_len seed_len
      seed_offsets ref.length).1 with
    | [] => Except.ok (-1, -1)
    | c :: cs =>
      if broadcastOk read.length read_len then
        Except.ok ((scoreAndSelect ref read_len read c cs).1,
          ((scoreAndSelect ref read_len read c cs).2 : Int))
      else Except.error "operands could not be broadcast together"),
   (candidateStartsS index read read_len seed_len seed_offsets
      ref.length).2)

/-- The batch loop of vecmap with the threaded index state. -/
def vecmapGoS {ι : Type} (ref : Str) (read_len seed_len : Nat)
    (seed_offsets : List Nat) :
    SeedIndex → List (Str × ι) →
      Except String (List (Int × Int × ι)) × SeedIndex
  | index, [] => (Except.ok [], index)
  | index, (read, tp) :: rest =>
    match mapOneS ref index read_len seed_len seed_offsets read with
    | (Except.error e, index2) => (Except.error e, index2)
    | (Except.ok (p, m), index2) =>
      match vecmapGoS ref read_len seed_len seed_offsets index2 rest with
      | (Except.error e, index3) => (Except.error e, index3)
      | (Except.ok ms, index3) => (Except.ok ((p, m, tp) :: ms), index3)

lemma candidateStartsS_spec (index : SeedIndex) (read : Str)
    (read_len seed_len : Nat) (seed_offsets : List Nat) (ref_len : Nat) :
    candidateStartsS index read read_len seed_len seed_offsets ref_len =
      (candidateStartsList index read read_len seed_len seed_offsets
        ref_len, index) := by
  have key : ∀ (offsets : List Nat) (acc : List Int),
      offsets.foldl
        (fun st offset =>
          let lk := dictGet st.2 (slice read offset (offset + seed_len))
          (st.1 ++ (lk.1.map
            (fun hit : Nat => (hit : Int) - (offset : Int))).filter
              (inRange read_len ref_len), lk.2))
        (acc, index) =
      (acc ++ (offsets.map (fun offset =>
        ((getD index (slice read offset (offset + seed_len))).map
          (fun hit : Nat => (hit : Int) - (offset : Int))).filter
            (inRange read_len ref_len))).flatten, index) := by
    intro offsets
    induction offsets with
    | nil => intro acc; simp
    | cons o os ih =>
      intro acc
      rw [List.foldl_cons, List.map_cons, List.flatten_cons,
        ← List.append_assoc]
      exact ih (acc ++ ((getD index (slice read o (o + seed_len))).map
        (fun hit : Nat => (hit : Int) - (o : Int))).filter
          (inRange read_len ref_len))
  rw [candidateStartsS, candidateStartsList, key seed_offsets []]
  simp

lemma mapOneS_spec (ref : Str) (index : SeedIndex)
    (read_len seed_len : Nat) (seed_offsets : List Nat) (read : Str) :
    mapOneS ref index read_len seed_len seed_offsets read =
      (mapOne ref index read_len seed_len seed_offsets read, index) := by
  rw [mapOneS, mapOne, candidateStartsS_spec]

lemma vecmapGoS_spec {ι : Type} (ref : Str) (read_len seed_len : Nat)
    (seed_offsets : List Nat) :
    ∀ (index : SeedIndex) (reads : List (Str × ι)),
      vecmapGoS ref read_len seed_len seed_offsets index reads =
        (vecmapGo ref index read_len seed_len seed_offsets reads, index)
  | _, [] => rfl
  | index, (read, tp) :: rest => by
    rw [vecmapGoS, vecmapGo, mapOneS_spec]
    cases mapOne ref index read_len seed_len seed_offsets read with
    | error e => rfl
    | ok pm =>
      obtain ⟨p, m⟩ := pm
      simp only [vecmapGoS_spec ref read_len seed_len seed_offsets index
        rest]
      cases vecmapGo ref index read_len seed_len seed_offsets rest with
      | error e => rfl
      | ok ms => rfl

/-- C9: per-read processing never mutates the shared structures.  With
the Python dictionary operations modelled as state transformers
(`dictGet` is `dict.get`, which returns the state unchanged even for a
seed absent from the index, in contrast to the defaultdict subscript
`defaultGetItem`, which inserts missing keys and is used only during
construction), threading the seed index through every per-read
candidate-generation lookup of the whole batch returns the index built
by `build_seed_index` unchanged, while producing exactly the baseline
vecmap results; the reference is only ever read through pure slicing. -/
theorem C9_read_only_shared_index {ι : Type} (ref : Str)
    (reads : List (Str × ι)) (read_len seed_len : Nat)
    (seed_offsets : List Nat) :
    (vecmapGoS ref read_len seed_len seed_offsets
        (build_seed_index ref seed_len) reads).2 =
      build_seed_index ref seed_len ∧
    (vecmapGoS ref read_len seed_len seed_offsets
        (build_seed_index ref seed_len) reads).1 =
      vecmap ref reads read_len seed_len seed_offsets := by
  rw [vecmapGoS_spec, vecmap]
  exact ⟨rfl, rfl⟩

/-- Reference construction of `CRISPRGuideDetector.__init__` in
src/vecmap/applications/crispr.py: concatenate every guide sequence
followed by a ten-symbol N spacer (`self.reference += guide_seq +
"N" * 10`); guide `i` is registered at position
`i * (guide_length + 10)`. -/
def buildGuideReference (guides : List Str) : Str :=
  guides.foldl
    (fun reference g => reference ++ (g ++ List.replicate 10 'N')) []

lemma buildGuideReference_eq_flatten (guides : List Str) :
    buildGuideReference guides =
      (guides.map (fun g => g ++ List.replicate 10 'N')).flatten := by
  rw [buildGuideReference]
  have key : ∀ (gs : List Str) (acc : Str),
      gs.foldl (fun reference g =>
          reference ++ (g ++ List.replicate 10 'N')) acc =
        acc ++ (gs.map (fun g => g ++ List.replicate 10 'N')).flatten := by
    intro gs
    induction gs with
    | nil => intro acc; simp
    | cons g gs ih =>
      intro acc
      rw [List.foldl_cons, ih]
      simp [List.append_assoc]
  rw [key guides []]
  simp

lemma buildGuideReference_cons (g : Str) (gs : List Str) :
    buildGuideReference (g :: gs) =
      (g ++ List.replicate 10 'N') ++ buildGuideReference gs := by
  rw [buildGuideReference_eq_flatten, buildGuideReference_eq_flatten,
    List.map_cons, List.flatten_cons]

lemma buildGuideReference_length (gl : Nat) : ∀ (guides : List Str),
    (∀ g ∈ guides, g.length = gl) →
    (buildGuideReference guides).length = (gl + 10) * guides.length
  | [], _ => rfl
  | g :: gs, hlen => by
    rw [buildGuideReference_cons, List.length_append,
      buildGuideReference_length gl gs
        (fun x hx => hlen x (List.mem_cons.mpr (Or.inr hx)))]
    have hg : g.length = gl := hlen g (List.mem_cons_self _ _)
    simp only [List.length_append, List.length_replicate, hg,
      List.length_cons]
    ring

lemma drop_buildGuideReference (gl : Nat) :
    ∀ (guides : List Str) (i : Nat),
    (∀ g ∈ guides, g.length = gl) →
    (buildGuideReference guides).drop ((gl + 10) * i) =
      buildGuideReference (guides.drop i)
  | _, 0, _ => by simp
  | [], _ + 1, _ => by simp [buildGuideReference]
  | g :: gs, i + 1, hlen => by
    rw [buildGuideReference_cons]
    have hblock : (g ++ List.replicate 10 'N').length = gl + 10 := by
      simp [hlen g (List.mem_cons_self _ _)]
    rw [show (gl + 10) * (i + 1) =
      (g ++ List.replicate 10 'N').length + (gl + 10) * i by
        rw [hblock]; ring]
    rw [List.drop_append, drop_buildGuideReference gl gs i
      (fun x hx => hlen x (List.mem_cons.mpr (Or.inr hx)))]
    rfl

lemma slice_buildGuideReference_front (gl : Nat) (guides : List Str)
    (i a : Nat) (ha : a ≤ gl)
    (hlen : ∀ g ∈ guides, g.length = gl) (hi : i < guides.length) :
    slice (buildGuideReference guides) ((gl + 10) * i)
        ((gl + 10) * i + a) = slice guides[i] 0 a := by
  have hg : guides[i].length = gl := hlen _ (List.getElem_mem hi)
  rw [slice, show (gl + 10) * i + a - (gl + 10) * i = a by omega,
    drop_buildGuideReference gl guides i hlen,
    List.drop_eq_getElem_cons hi, buildGuideReference_cons,
    List.append_assoc, slice, List.drop_zero, Nat.sub_zero]
  exact List.take_append_of_le_length (by omega)

lemma slice_buildGuideReference_guide (gl : Nat) (guides : List Str)
    (i : Nat) (hlen : ∀ g ∈ guides, g.length = gl)
    (hi : i < guides.length) :
    slice (buildGuideReference guides) ((gl + 10) * i)
        ((gl + 10) * i + gl) = guides[i] := by
  have hg : guides[i].length = gl := hlen _ (List.getElem_mem hi)
  rw [slice_buildGuideReference_front gl guides i gl le_rfl hlen hi,
    slice, List.drop_zero, Nat.sub_zero]
  exact List.take_of_length_le (by omega)

lemma window_no_spacer_aligned (gl : Nat) (hgl1 : 1 ≤ gl) :
    ∀ (guides : List Str) (p : Nat),
      (∀ g ∈ guides, g.length = gl) →
      p + gl ≤ (gl + 10) * guides.length →
      (∀ j, j < gl →
        (buildGuideReference guides)[p + j]? ≠ some 'N') →
      ∃ q, q < guides.length ∧ p = (gl + 10) * q
  | [], p, _, hp, _ => by
    exfalso
    simp only [List.length_nil, Nat.mul_zero] at hp
    omega
  | g :: gs, p, hlen, hp, hnoN => by
    have hg : g.length = gl := hlen g (List.mem_cons_self _ _)
    by_cases hp0 : p = 0
    · exact ⟨0, by simp, by omega⟩
    · by_cases hpB : p < gl + 10
      · exfalso
        rcases Nat.lt_or_ge p gl with hplt | hpge
        · refine hnoN (gl - p) (by omega) ?_
          rw [buildGuideReference_cons,
            List.getElem?_append_left (by
              rw [List.length_append, List.length_replicate]; omega),
            List.getElem?_append_right (by omega),
            List.getElem?_replicate_of_lt (by omega)]
        · refine hnoN 0 (by omega) ?_
          rw [Nat.add_zero, buildGuideReference_cons,
            List.getElem?_append_left (by
              rw [List.length_append, List.length_replicate]; omega),
            List.getElem?_append_right (by omega),
            List.getElem?_replicate_of_lt (by omega)]
      · have hrec := window_no_spacer_aligned gl hgl1 gs (p - (gl + 10))
          (fun x hx => hlen x (List.mem_cons.mpr (Or.inr hx)))
          (by rw [List.length_cons, Nat.mul_succ] at hp; omega)
          (by
            intro j hjlt hNc
            refine hnoN j hjlt ?_
            rw [buildGuideReference_cons,
              List.getElem?_append_right (by
                rw [List.length_append, List.length_replicate]; omega),
              show p + j - (g ++ List.replicate 10 'N').length =
                p - (gl + 10) + j by
                  rw [List.length_append, List.length_replicate]; omega]
            exact hNc)
        obtain ⟨q, hq, hpq⟩ := hrec
        refine ⟨q + 1, by simp only [List.length_cons]; omega, ?_⟩
        rw [Nat.mul_succ]
        omega

lemma occurrence_is_block_start (gl : Nat) (hgl1 : 1 ≤ gl)
    (guides : List Str) (p i : Nat)
    (hlen : ∀ g ∈ guides, g.length = gl)
    (halpha : ∀ g ∈ guides, ∀ c ∈ g,
      c = 'A' ∨ c = 'C' ∨ c = 'G' ∨ c = 'T')
    (hnodup : guides.Nodup)
    (hi : i < guides.length)
    (hp : p + gl ≤ (gl + 10) * guides.length)
    (hocc : slice (buildGuideReference guides) p (p + gl) = guides[i]) :
    p = (gl + 10) * i := by
  have hgli : guides[i].length = gl := hlen _ (List.getElem_mem hi)
  have hchar : ∀ j, j < gl →
      (buildGuideReference guides)[p + j]? = guides[i][j]? := by
    intro j hj
    rw [← slice_getElem? (buildGuideReference guides) p (p + gl) j
      (by omega), hocc]
  have hnoN : ∀ j, j < gl →
      (buildGuideReference guides)[p + j]? ≠ some 'N' := by
    intro j hj hsome
    rw [hchar j hj, List.getElem?_eq_getElem (by omega)] at hsome
    rw [Option.some.injEq] at hsome
    have hcm := halpha _ (List.getElem_mem hi) _
      (List.getElem_mem (show j < guides[i].length by omega))
    rcases hcm with h | h | h | h <;> rw [hsome] at h <;>
      exact absurd h (by decide)
  obtain ⟨q, hq, hpq⟩ :=
    window_no_spacer_aligned gl hgl1 guides p hlen hp hnoN
  subst hpq
  have hslice := slice_buildGuideReference_guide gl guides q hlen hq
  rw [hocc] at hslice
  have heq := (List.Nodup.getElem_inj_iff hnodup).mp hslice
  rw [heq]

lemma hammingDist_zero_eq : ∀ {s t : Str}, s.length = t.length →
    hammingDist s t = 0 → s = t
  | [], [], _, _ => rfl
  | [], _ :: _, hl, _ => by simp at hl
  | _ :: _, [], hl, _ => by simp at hl
  | a :: s, b :: t, hl, hd => by
    rw [hammingDist] at hd
    by_cases hab : a = b
    · rw [if_pos hab] at hd
      simp only [List.length_cons] at hl
      rw [hab, @hammingDist_zero_eq s t (by omega) (by omega)]
    · rw [if_neg hab] at hd
      omega

lemma guide_block_start_mem_candidates (gl : Nat) (hgl : 20 ≤ gl)
    (guides : List Str) (i : Nat)
    (hlen : ∀ g ∈ guides, g.length = gl) (hi : i < guides.length) :
    (((gl + 10) * i : Nat) : Int) ∈ sortedSet (candidateStartsList
      (build_seed_index (buildGuideReference guides) 20) guides[i] gl 20
      [0, 20, 40, 60, 80] (buildGuideReference guides).length) := by
  have hle1 : (gl + 10) * (i + 1) ≤ (gl + 10) * guides.length :=
    Nat.mul_le_mul_left _ hi
  have hmul : (gl + 10) * (i + 1) = (gl + 10) * i + (gl + 10) := by ring
  have hN : (buildGuideReference guides).length =
      (gl + 10) * guides.length := buildGuideReference_length gl guides
    hlen
  rw [mem_sortedSet, mem_candidateStartsList]
  refine ⟨0, by simp, (gl + 10) * i, ?_, by simp, by simp; positivity,
    ?_⟩
  · rw [mem_getD_build]
    constructor
    · rw [hN]; omega
    · exact slice_buildGuideReference_front gl guides i 20 hgl hlen hi
  · rw [hN]
    omega

lemma zero_score_unique (gl : Nat) (hgl1 : 1 ≤ gl) (guides : List Str)
    (i : Nat) (q : Int)
    (hlen : ∀ g ∈ guides, g.length = gl)
    (halpha : ∀ g ∈ guides, ∀ c ∈ g,
      c = 'A' ∨ c = 'C' ∨ c = 'G' ∨ c = 'T')
    (hnodup : guides.Nodup) (hi : i < guides.length)
    (hq0 : 0 ≤ q)
    (hqb : q + (gl : Int) ≤ ((buildGuideReference guides).length : Int))
    (hscore : npMismatches (windowAt (buildGuideReference guides) q gl)
      guides[i] = 0) :
    q = (((gl + 10) * i : Nat) : Int) := by
  have hgli : guides[i].length = gl := hlen _ (List.getElem_mem hi)
  have hwl : (windowAt (buildGuideReference guides) q gl).length = gl :=
    windowAt_length hq0 hqb
  rw [npMismatches, if_pos (by rw [hwl, hgli]),
    countP_zip_eq_hammingDist] at hscore
  have hweq : windowAt (buildGuideReference guides) q gl = guides[i] :=
    hammingDist_zero_eq (by rw [hwl, hgli]) hscore
  have hN : (buildGuideReference guides).length =
      (gl + 10) * guides.length := buildGuideReference_length gl guides
    hlen
  have hocc : slice (buildGuideReference guides) q.toNat
      (q.toNat + gl) = guides[i] := hweq
  have hp : q.toNat + gl ≤ (gl + 10) * guides.length := by omega
  have hblock := occurrence_is_block_start gl hgl1 guides q.toNat i hlen
    halpha hnodup hi hp hocc
  omega

/-- Counterexample to C8: a guide library of pairwise-distinct
fixed-length targets of length 1.  `detect_guides` calls vecmap with
its default seed length 20, so a read of the matching length 1 extracts
a slice shorter than every index key, finds no candidates and comes
back as the `(-1, -1)` sentinel — not at the registered offset 0 with
zero mismatches as the claim requires for every fixed target length. -/
theorem C8_counterexample :
    vecmap (buildGuideReference [['A']]) [(['A'], (0 : Nat))] 1 20
        [0, 20, 40, 60, 80] = Except.ok [(-1, -1, 0)] ∧
      ¬ vecmap (buildGuideReference [['A']]) [(['A'], (0 : Nat))] 1 20
        [0, 20, 40, 60, 80] = Except.ok [(0, 0, 0)] := by
  constructor
  · rfl
  · intro h
    have h2 := (show vecmap (buildGuideReference [['A']])
      [(['A'], (0 : Nat))] 1 20 [0, 20, 40, 60, 80] =
        Except.ok [(-1, -1, 0)] from rfl).symm.trans h
    rw [Except.ok.injEq] at h2
    exact absurd h2 (by decide)

/-- C8 as amended: the round trip holds for every fixed target length
of at least 20 (the seed length that `detect_guides` implicitly fixes
by calling vecmap with its defaults): for every library of
pairwise-distinct targets of one length `gl ≥ 20` over the alphabet
A, C, G, T, concatenated with ten-symbol N spacers, querying target
`i`'s own sequence as a read of length `gl` returns exactly the
registered offset `(gl + 10) * i` with zero mismatches, and integer
division of the position by target_length + spacer_length recovers the
owning index `i`.  (For target lengths below 20 the claim fails: see
the counterexample, where the seed slice is shorter than every index
key and the read is reported unmapped.) -/
theorem C8_amended_round_trip (guides : List Str) (gl i id : Nat)
    (hgl : 20 ≤ gl)
    (hlen : ∀ g ∈ guides, g.length = gl)
    (halpha : ∀ g ∈ guides, ∀ c ∈ g,
      c = 'A' ∨ c = 'C' ∨ c = 'G' ∨ c = 'T')
    (hnodup : guides.Nodup) (hi : i < guides.length) :
    vecmap (buildGuideReference guides) [(guides[i], id)] gl 20
        [0, 20, 40, 60, 80] =
      Except.ok [((((gl + 10) * i : Nat) : Int), 0, id)] ∧
    ((gl + 10) * i) / (gl + 10) = i := by
  have hgli : guides[i].length = gl := hlen _ (List.getElem_mem hi)
  constructor
  · have hmem := guide_block_start_mem_candidates gl hgl guides i hlen
      hi
    have hne : sortedSet (candidateStartsList
        (build_seed_index (buildGuideReference guides) 20) guides[i] gl
        20 [0, 20, 40, 60, 80]
        (buildGuideReference guides).length) ≠ [] := by
      intro hnil
      rw [hnil] at hmem
      exact absurd hmem (List.not_mem_nil _)
    obtain ⟨c, rest, hc⟩ := List.exists_cons_of_ne_nil hne
    have hb : broadcastOk guides[i].length gl = true := by
      simp [broadcastOk, hgli]
    have hone := @mapOne_eq_of_cons (buildGuideReference guides)
      (build_seed_index (buildGuideReference guides) 20) gl 20
      [0, 20, 40, 60, 80] guides[i] c rest hc hb
    obtain ⟨p, hp, hsel⟩ :=
      scoreAndSelect_mem (buildGuideReference guides) gl guides[i] c
        rest
    have hwin : windowAt (buildGuideReference guides)
        (((gl + 10) * i : Nat) : Int) gl = guides[i] := by
      rw [windowAt,
        show ((((gl + 10) * i : Nat) : Int)).toNat = (gl + 10) * i from
          rfl]
      exact slice_buildGuideReference_guide gl guides i hlen hi
    have hstart : npMismatches (windowAt (buildGuideReference guides)
        (((gl + 10) * i : Nat) : Int) gl) guides[i] = 0 := by
      rw [hwin, npMismatches, if_pos rfl, countP_zip_eq_hammingDist,
        hammingDist_self]
    have hmem2 : (((gl + 10) * i : Nat) : Int) ∈ c :: rest := by
      rw [← hc]
      exact hmem
    have hle := scoreAndSelect_min (buildGuideReference guides) gl
      guides[i] c rest _ hmem2
    rw [hstart] at hle
    have hzero : (scoreAndSelect (buildGuideReference guides) gl
        guides[i] c rest).2 = 0 := Nat.le_zero.mp hle
    have hpscore : npMismatches (windowAt (buildGuideReference guides)
        p gl) guides[i] = 0 := by
      rw [← hzero, hsel]
    have hpmem : p ∈ sortedSet (candidateStartsList
        (build_seed_index (buildGuideReference guides) 20) guides[i] gl
        20 [0, 20, 40, 60, 80]
        (buildGuideReference guides).length) := by
      rw [hc]
      exact hp
    have hbounds := candidate_bounds hpmem
    have hpeq := zero_score_unique gl (by omega) guides i p hlen halpha
      hnodup hi hbounds.1 hbounds.2 hpscore
    rw [vecmap]
    simp only [vecmapGo, hone]
    rw [hsel, hpscore, hpeq]
    simp
  · exact Nat.mul_div_right i (by omega)

/-- Witness for the amended C8: a two-guide library of distinct
21-mers (target length 21 > 20); querying guide 1's sequence returns
position 31 = (21 + 10) * 1 with zero mismatches, and 31 / 31 recovers
index 1. -/
theorem C8_amended_witness :
    vecmap (buildGuideReference
        [List.replicate 21 'A', List.replicate 21 'C'])
      [(List.replicate 21 'C', (7 : Nat))] 21 20 [0, 20, 40, 60, 80] =
        Except.ok [((((21 + 10) * 1 : Nat) : Int), 0, 7)] ∧
      ((21 + 10) * 1) / (21 + 10) = 1 :=
  C8_amended_round_trip
    [List.replicate 21 'A', List.replicate 21 'C'] 21 1 7
    (by decide) (by decide) (by decide) (by decide) (by decide)

end VecMap
